import Mathlib

/-!
Shallow embedding of the caltrix-bot synchronization pipeline (src/index.cjs).

The embedding covers the core pipeline: month-window computation and the
source-database query (`monthStartEnd`, `queryNotionForMonth`), cross-reference
resolution with its per-sync cache (`getPageTitleCached`, `resolveRelationNames`),
rendering (`fmtLine`, `buildEmbed`), and the idempotent destination-message
upsert (`ensureScheduleMessage`, `publishSchedule`).

External collaborators are modelled as follows.

* The Notion HTTP client (`notionRequest`): a fallible call is a value of
  `Except String α`; a thrown `Notion API <status>: <message>` error is the
  `.error` case.  The get-page-by-id operation is an oracle
  `fetch : String → Except String Page` passed as a parameter; the database
  query operation is an oracle `dbq : QueryRequest → Except String QueryResponse`.
* The Discord client and the two persisted JSON files: the relevant mutable
  state (threads with their messages, the `meta.json` mapping, the process-wide
  page-title cache) is an explicit `World` value threaded through the
  operations.
* JavaScript `Date` values are structured `JsDate` values (year, 0-based month
  as returned by `getMonth()`, day of month, milliseconds within the day);
  `getTime` is the usual civil-calendar timestamp.  Timezone conversion is out
  of scope (the spec states the core performs none), and unparsable date
  strings (JS `Invalid Date`, a NaN timestamp) are outside the model: the
  claims under proof only concern records with a usable date value and valid
  `YYYY-MM` month keys.
* JavaScript string primitives that the code uses (`split("-")`, `Number`,
  `trim`, `padStart(2, "0")`, `join`) are re-implemented over character lists
  so that every definition evaluates inside the kernel.
-/

namespace Caltrix

/-! ### Association lists (JS objects / `Map` with string keys) -/

/-- Lookup in an association list; models JS property access `obj[key]` and
`Map.get`/`Map.has`. -/
def alookup {α : Type} : List (String × α) → String → Option α
  | [], _ => none
  | (k, v) :: rest, key => if k = key then some v else alookup rest key

/-- Key assignment `obj[key] = v` on a JS object / `Map.set`: replaces the
binding when the key is present, appends it otherwise. -/
def asetKey {α : Type} : List (String × α) → String → α → List (String × α)
  | [], key, v => [(key, v)]
  | (k, w) :: rest, key, v =>
    if k = key then (key, v) :: rest else (k, w) :: asetKey rest key v

theorem alookup_asetKey_self {α : Type} (m : List (String × α)) (key : String) (v : α) :
    alookup (asetKey m key v) key = some v := by
  induction m with
  | nil => simp [asetKey, alookup]
  | cons kv rest ih =>
    by_cases h : kv.1 = key
    · simp [asetKey, h, alookup]
    · simp [asetKey, h, alookup, ih]

theorem alookup_asetKey_other {α : Type} (m : List (String × α)) (key k : String) (v : α)
    (hne : k ≠ key) : alookup (asetKey m key v) k = alookup m k := by
  have hne' : key ≠ k := fun h => hne h.symm
  induction m with
  | nil => simp [asetKey, alookup, hne']
  | cons kv rest ih =>
    by_cases h : kv.1 = key
    · simp [asetKey, h, alookup, hne', h ▸ hne']
    · simp [asetKey, h, alookup, ih]

/-! ### JavaScript strings -/

/-- JS `String.prototype.trim`. -/
def jsTrim (s : String) : String :=
  String.mk (((s.data.dropWhile Char.isWhitespace).reverse.dropWhile Char.isWhitespace).reverse)

def splitDashAux : List Char → List Char → List (List Char)
  | [], acc => [acc.reverse]
  | c :: cs, acc => if c = '-' then acc.reverse :: splitDashAux cs [] else splitDashAux cs (c :: acc)

/-- JS `monthKey.split("-")`. -/
def jsSplitDash (s : String) : List String := (splitDashAux s.data []).map String.mk

def digitVal? (c : Char) : Option Nat :=
  if '0' ≤ c ∧ c ≤ '9' then some (c.toNat - '0'.toNat) else none

def parseNatAux : List Char → Nat → Option Nat
  | [], acc => some acc
  | c :: cs, acc =>
    match digitVal? c with
    | some d => parseNatAux cs (acc * 10 + d)
    | none => none

/-- JS `Number(s)` on the non-negative decimal strings that occur in month
keys; `none` models `NaN` (which only arises for invalid keys, outside the
claims under proof). -/
def jsNumber (s : String) : Option Int :=
  match s.data with
  | [] => none
  | l => (parseNatAux l 0).map Int.ofNat

/-- JS `String(n).padStart(2, "0")`. -/
def padStart2 (s : String) : String :=
  if s.length ≥ 2 then s else if s.length = 1 then "0" ++ s else "00"

/-! ### JavaScript dates -/

/-- A valid (non-`NaN`) JS `Date`: `month` is the 0-based month index as
returned by `getMonth()`, `day` the day of month as returned by `getDate()`,
`ms` the milliseconds elapsed within the day. -/
structure JsDate where
  year : Int
  month : Int
  day : Int
  ms : Int
deriving DecidableEq, Repr

/-- Days since 1970-01-01 of the civil date `(y, m0 + 1, d)` (`m0` 0-based),
the standard civil-from-days inverse used by JS `Date.prototype.getTime`. -/
def daysFromCivil (y m0 d : Int) : Int :=
  let m := m0 + 1
  let yy := if m ≤ 2 then y - 1 else y
  let era := yy / 400
  let yoe := yy - era * 400
  let mp := (m + 9) % 12
  let doy := (153 * mp + 2) / 5 + d - 1
  let doe := yoe * 365 + yoe / 4 - yoe / 100 + doy
  era * 146097 + doe - 719468

/-- JS `Date.prototype.getTime` (milliseconds since the epoch). -/
def JsDate.getTime (dt : JsDate) : Int :=
  daysFromCivil dt.year dt.month dt.day * 86400000 + dt.ms

/-- JS `new Date(y, m, d)` month-overflow normalization: the constructor
carries month overflow/underflow into the year (`new Date(2025, 12, 1)` is
January 1, 2026). -/
def jsNewDateYMD (y m d : Int) : JsDate :=
  ⟨y + m / 12, m % 12, d, 0⟩

/-! ### Month keys (date helpers of the source) -/

/-- `monthKey.split("-").map(Number)` destructured to `[Y, M]`; `none` models a
`NaN` component (invalid key). -/
def parseMonthKey (monthKey : String) : Option (Int × Int) :=
  match (jsSplitDash monthKey).map jsNumber with
  | some y :: some m :: _ => some (y, m)
  | _ => none

/-- `monthStartEnd` of the source: start of the month and start of the next
month, the latter via the JS `Date` December-to-January rollover.  Invalid
month keys (`NaN` dates) are outside the model and defaulted. -/
def monthStartEnd (monthKey : String) : JsDate × JsDate :=
  let ym := (parseMonthKey monthKey).getD (0, 0)
  (jsNewDateYMD ym.1 (ym.2 - 1) 1, jsNewDateYMD ym.1 ym.2 1)

/-- The composition of `toLocaleString("en-US", \x7b month: "long" \x7d)` with the
fixed `en-US` locale data, as a table indexed by the 0-based month. -/
def MONTH_LONG : List String :=
  ["January", "February", "March", "April", "May", "June", "July", "August",
   "September", "October", "November", "December"]

/-- The composition of `toLocaleString("en-US", \x7b month: "short" \x7d)` with
`toUpperCase()`, as a table indexed by the 0-based month. -/
def MONTH_SHORT_UPPER : List String :=
  ["JAN", "FEB", "MAR", "APR", "MAY", "JUN", "JUL", "AUG", "SEP", "OCT", "NOV", "DEC"]

/-- `fmtMonthTitle` of the source: long month name plus year. -/
def fmtMonthTitle (monthKey : String) : String :=
  let ym := (parseMonthKey monthKey).getD (0, 0)
  MONTH_LONG.getD ((jsNewDateYMD ym.1 (ym.2 - 1) 1).month).toNat "" ++ " " ++ toString ym.1

/-! ### Notion data model and property parsing -/

/-- A typed Notion property value as the source discriminates on `prop.type`.
Rich-text arrays are kept as the list of their `plain_text` fragments; a date
property's `start` is kept as its parsed `JsDate` (absent or empty start is
`none`). -/
inductive NotionProp where
  | title (rich : List String)
  | richText (rich : List String)
  | select (name : Option String)
  | url (u : Option String)
  | date (start : Option JsDate)
  | relation (ids : List String)
deriving DecidableEq, Repr

/-- A raw Notion page: its `properties` object, keys in object order. -/
structure Page where
  properties : List (String × NotionProp)
deriving DecidableEq, Repr

/-- `NOTION_PROPS` of the source: the DB column names. -/
structure NotionProps where
  title : String
  date : String
  time : String
  type : String
  artist : String
  member : String
  location : String
  status : String
  link : String
deriving DecidableEq, Repr

def NOTION_PROPS : NotionProps :=
  ⟨"Title", "Date", "Time", "Type", "Artist", "Member", "Location", "Status", "Link"⟩

/-- `rtPlain`: join the `plain_text` fragments of a rich-text array. -/
def rtPlain (arr : List String) : String := String.join arr

def titlePlain : Option NotionProp → String
  | some (.title rich) => rtPlain rich
  | _ => ""

def richTextPlain : Option NotionProp → String
  | some (.richText rich) => rtPlain rich
  | _ => ""

/-- `selectPlain`: `prop.select?.name || ""`. -/
def selectPlain : Option NotionProp → String
  | some (.select name) => name.getD ""
  | _ => ""

/-- `urlPlain`: `prop.url || ""`. -/
def urlPlain : Option NotionProp → String
  | some (.url u) => u.getD ""
  | _ => ""

/-- `dateStart`: `prop.date?.start || null`. -/
def dateStart : Option NotionProp → Option JsDate
  | some (.date start) => start
  | _ => none

/-- `relationIds`: `(prop.relation || []).map(r => r.id)`. -/
def relationIds : Option NotionProp → List String
  | some (.relation ids) => ids
  | _ => []

def isTitleProp : NotionProp → Bool
  | .title _ => true
  | _ => false

/-- `firstTitleFromPage`: plain text of the first title-typed property of a
page, defaulting to the empty string. -/
def firstTitleFromPage (page : Page) : String :=
  match page.properties.find? (fun kv => isTitleProp kv.2) with
  | some kv =>
    match kv.2 with
    | .title rich => rtPlain rich
    | _ => ""
  | none => ""

/-! ### Relation resolution with the per-sync cache

The process-wide `pageTitleCache` together with the instrumentation needed to
state the at-most-one-fetch-per-identifier invariant: an `RState` is the cache
contents paired with the trace of page ids passed to the get-page fetch so
far. -/

/-- The `pageTitleCache` `Map` contents. -/
abbrev Cache : Type := List (String × String)

/-- Resolution state: the cache plus the trace of issued get-page fetches
(instrumentation; the source performs the fetches as side effects). -/
abbrev RState : Type := Cache × List String

/-- `getPageTitleCached`: return the cached title, or fetch the page, extract
its first title (`firstTitleFromPage(page) || ""`), and cache it.  A fetch
failure propagates (`notionRequest` throws on a non-2xx response). -/
def getPageTitleCached (fetch : String → Except String Page) (st : RState)
    (pageId : String) : Except String (String × RState) :=
  match alookup st.1 pageId with
  | some t => .ok (t, st)
  | none =>
    match fetch pageId with
    | .error e => .error e
    | .ok page =>
      let title := firstTitleFromPage page
      .ok (title, ((pageId, title) :: st.1, st.2 ++ [pageId]))

/-- The `for (const id of sliced)` loop of `resolveRelationNames`: resolve each
id in order, keeping only truthy (non-empty) titles. -/
def resolveNamesGo (fetch : String → Except String Page) :
    RState → List String → Except String (List String × RState)
  | st, [] => .ok ([], st)
  | st, id :: rest =>
    match getPageTitleCached fetch st id with
    | .error e => .error e
    | .ok (t, st') =>
      match resolveNamesGo fetch st' rest with
      | .error e => .error e
      | .ok (names, st'') => .ok ((if t = "" then [] else [t]) ++ names, st'')

/-- `resolveRelationNames` (the source declares `max = 2` as default and every
call site passes `2` explicitly): resolve the first `max` relation ids to
display names, then append the `+<excess>` overflow marker when more ids
exist. -/
def resolveRelationNames (fetch : String → Except String Page) (st : RState)
    (prop : Option NotionProp) (max : Nat) : Except String (List String × RState) :=
  let ids := relationIds prop
  if ids.isEmpty then .ok ([], st)
  else
    match resolveNamesGo fetch st (ids.take max) with
    | .error e => .error e
    | .ok (names, st') =>
      .ok ((if max < ids.length then names ++ ["+" ++ toString (ids.length - max)] else names), st')

/-! ### Month-window query -/

/-- The normalized record pushed onto `items` by `queryNotionForMonth`. -/
structure Item where
  title : String
  type : String
  dateObj : JsDate
  timeText : String
  location : String
  link : String
  artistText : String
  memberText : String
deriving DecidableEq, Repr

/-- The query body `queryNotionForMonth` sends: the status/date filter
conjunction, the ascending date sort, and the page-size cap. -/
structure QueryRequest where
  filterStatusEquals : String
  filterOnOrAfter : Int
  filterBefore : Int
  sortAscendingByDate : Bool
  pageSize : Nat
deriving DecidableEq, Repr

/-- A query response: `res.results || []`. -/
structure QueryResponse where
  results : List Page
deriving DecidableEq, Repr

/-- `pageTitleCache.clear()`. -/
def clearCache (_c : Cache) : Cache := []

/-- The per-page normalization body of the `for (const page of res.results)`
loop: `none` is the `continue` taken on a record without a usable date (no
entity resolution is attempted for such a record). -/
def normalizePage (fetch : String → Except String Page) (st : RState) (page : Page) :
    Except String (Option Item × RState) :=
  let p := page.properties
  let title0 := titlePlain (alookup p NOTION_PROPS.title)
  let title := if title0 = "" then "(Untitled)" else title0
  let ty := selectPlain (alookup p NOTION_PROPS.type)
  match dateStart (alookup p NOTION_PROPS.date) with
  | none => .ok (none, st)
  | some ds =>
    let timeText := richTextPlain (alookup p NOTION_PROPS.time)
    let location := selectPlain (alookup p NOTION_PROPS.location)
    let link := urlPlain (alookup p NOTION_PROPS.link)
    match resolveRelationNames fetch st (alookup p NOTION_PROPS.artist) 2 with
    | .error e => .error e
    | .ok (artistNames, st1) =>
      match resolveRelationNames fetch st1 (alookup p NOTION_PROPS.member) 2 with
      | .error e => .error e
      | .ok (memberNames, st2) =>
        .ok (some ⟨title, ty, ds, jsTrim timeText, jsTrim location, jsTrim link,
          String.intercalate ", " artistNames, String.intercalate ", " memberNames⟩, st2)

/-- The record-building loop of `queryNotionForMonth` over the raw result
page. -/
def processResults (fetch : String → Except String Page) :
    RState → List Page → Except String (List Item × RState)
  | st, [] => .ok ([], st)
  | st, page :: rest =>
    match normalizePage fetch st page with
    | .error e => .error e
    | .ok (none, st') => processResults fetch st' rest
    | .ok (some it, st') =>
      match processResults fetch st' rest with
      | .error e => .error e
      | .ok (items, st'') => .ok (it :: items, st'')

/-- The comparator `(a, b) => a.dateObj - b.dateObj` as an order relation. -/
def itemDateLe (a b : Item) : Prop := a.dateObj.getTime ≤ b.dateObj.getTime

instance : DecidableRel itemDateLe := fun a b => Int.decLe a.dateObj.getTime b.dateObj.getTime

instance : IsTotal Item itemDateLe := ⟨fun x y => Int.le_total x.dateObj.getTime y.dateObj.getTime⟩

instance : IsTrans Item itemDateLe := ⟨fun _ _ _ => Int.le_trans⟩

/-- `queryNotionForMonth`: compute the month window, clear the per-sync cache,
issue the single bounded filtered query, normalize each raw record (dropping
records without a usable date), and defensively re-sort by `occursAt`
ascending (JS's stable `Array.prototype.sort`, here the stable insertion
sort).  `gcache` is the process-wide `pageTitleCache` contents at entry. -/
def queryNotionForMonth (dbq : QueryRequest → Except String QueryResponse)
    (fetch : String → Except String Page) (gcache : Cache) (monthKey : String) :
    Except String (List Item × RState) :=
  let se := monthStartEnd monthKey
  let st0 : RState := (clearCache gcache, [])
  match dbq ⟨"Upcoming", se.1.getTime, se.2.getTime, true, 100⟩ with
  | .error e => .error e
  | .ok res =>
    match processResults fetch st0 res.results with
    | .error e => .error e
    | .ok (items, st) => .ok (List.insertionSort itemDateLe items, st)

/-- Modelled from the spec: the Notion database-query service itself is not
part of the repository; §6 specifies it as "one query operation taking
(databaseId, filter-by-status-and-date-range, sort-ascending-by-date,
page-size-cap) returning a page of raw typed-property records".  `db` is the
database's page list; the service returns the pages matching the status and
date predicates, date-sorted ascending, capped at the page size. -/
def pageMatchesFilter (req : QueryRequest) (page : Page) : Bool :=
  (decide (selectPlain (alookup page.properties NOTION_PROPS.status) = req.filterStatusEquals)) &&
  (match dateStart (alookup page.properties NOTION_PROPS.date) with
   | some d => decide (req.filterOnOrAfter ≤ d.getTime) && decide (d.getTime < req.filterBefore)
   | none => false)

/-- Order used by the modelled service for its ascending date sort. -/
def pageDateLe (a b : Page) : Prop :=
  ((dateStart (alookup a.properties NOTION_PROPS.date)).map JsDate.getTime).getD 0 ≤
  ((dateStart (alookup b.properties NOTION_PROPS.date)).map JsDate.getTime).getD 0

instance : DecidableRel pageDateLe := fun a b =>
  Int.decLe (((dateStart (alookup a.properties NOTION_PROPS.date)).map JsDate.getTime).getD 0)
    (((dateStart (alookup b.properties NOTION_PROPS.date)).map JsDate.getTime).getD 0)

/-- Modelled from the spec (§6): the external database query service applied
to a database with page list `db`. -/
def notionDbQuery (db : List Page) (req : QueryRequest) : Except String QueryResponse :=
  .ok ⟨(List.insertionSort pageDateLe (db.filter (pageMatchesFilter req))).take req.pageSize⟩

/-! ### Discord formatting -/

/-- `fmtLine`: one rendered schedule line. -/
def fmtLine (evt : Item) : String :=
  let mon := MONTH_SHORT_UPPER.getD evt.dateObj.month.toNat ""
  let day := padStart2 (toString evt.dateObj.day)
  let timePart := if evt.timeText ≠ "" then " | " ++ evt.timeText else ""
  let emoji :=
    if evt.type = "Birthday" then "🎂 "
    else if evt.type = "Comeback" then "🔔 "
    else if evt.type = "Release" then "💿 "
    else if evt.type = "Event" then "📍 "
    else ""
  let metaParts :=
    (if evt.artistText ≠ "" then [evt.artistText] else []) ++
    (if evt.memberText ≠ "" then [evt.memberText] else []) ++
    (if evt.location ≠ "" then [evt.location] else [])
  let meta := if metaParts ≠ [] then " — " ++ String.intercalate " • " metaParts else ""
  let link := if evt.link ≠ "" then " · " ++ evt.link else ""
  jsTrim ("[" ++ mon ++ " " ++ day ++ timePart ++ "] " ++ emoji ++ evt.title ++ meta ++ link)

/-- The embed payload produced by `buildEmbed` (title, description, footer). -/
structure Embed where
  title : String
  description : String
  footer : String
deriving DecidableEq, Repr

/-- `buildEmbed` (the source declares `tzLabel = "KST"` as default). -/
def buildEmbed (monthKey : String) (events : List Item) (tzLabel : String) : Embed :=
  ⟨"Schedule — " ++ fmtMonthTitle monthKey,
   if events.isEmpty then "_No upcoming entries._"
   else String.intercalate "\n" (events.map fmtLine),
   "Synced from Notion • " ++ tzLabel⟩

/-! ### Destination (Discord) state and the upsert protocol

The mutable state the upsert protocol touches: the destination threads with
their messages (keyed by thread id), the fresh-message-id supply, the
persisted `meta.json` mapping (metaKey → messageId), and the process-wide
page-title cache. -/

/-- One destination message. -/
structure Msg where
  id : Nat
  content : String
  embeds : List Embed
deriving DecidableEq, Repr

/-- The mutable world: Discord threads with their messages, the message-id
supply, the persisted `meta.json` mapping, and the process-wide
`pageTitleCache`. -/
structure World where
  threads : List (String × List Msg)
  nextMsgId : Nat
  meta : List (String × Nat)
  cache : Cache
deriving DecidableEq, Repr

/-- The messages of a thread (empty when the thread id is unknown). -/
def threadMsgs (w : World) (tid : String) : List Msg :=
  (alookup w.threads tid).getD []

/-- `discord.channels.fetch(threadId)` succeeding. -/
def hasThread (w : World) (tid : String) : Bool :=
  (alookup w.threads tid).isSome

/-- `channelOrThread.messages.fetch(msgId)`: `none` models the fetch failure
on a deleted/inaccessible message. -/
def fetchMsg (w : World) (tid : String) (mid : Nat) : Option Msg :=
  (threadMsgs w tid).find? (fun m => decide (m.id = mid))

/-- `channelOrThread.send(content)`: create a message with a fresh id. -/
def sendToThread (w : World) (tid : String) (content : String) : Nat × World :=
  (w.nextMsgId,
   ⟨asetKey w.threads tid (threadMsgs w tid ++ [⟨w.nextMsgId, content, []⟩]),
    w.nextMsgId + 1, w.meta, w.cache⟩)

/-- `msg.edit(\x7b content, embeds \x7d)`: replace the content of the message with
the given id in place. -/
def editMsgList (msgs : List Msg) (mid : Nat) (content : String) (embeds : List Embed) :
    List Msg :=
  msgs.map (fun m => if m.id = mid then ⟨m.id, content, embeds⟩ else m)

def editMessage (w : World) (tid : String) (mid : Nat) (content : String)
    (embeds : List Embed) : World :=
  ⟨asetKey w.threads tid (editMsgList (threadMsgs w tid) mid content embeds),
   w.nextMsgId, w.meta, w.cache⟩

/-- The recreate branch of `ensureScheduleMessage`: send the placeholder
message, then persist the Destination-Message Record (`loadMetaAll`, patch the
one key, `saveMetaAll`). -/
def createSchedMsg (w : World) (tid metaKey : String) : Nat × World :=
  let sent := sendToThread w tid "Initializing schedule…"
  (sent.1, ⟨sent.2.threads, sent.2.nextMsgId, asetKey sent.2.meta metaKey sent.1,
    sent.2.cache⟩)

/-- `ensureScheduleMessage`: reuse the stored message when its id is present
and still fetchable, otherwise create a new one and persist its id. -/
def ensureScheduleMessage (w : World) (tid metaKey : String) : Nat × World :=
  match alookup w.meta metaKey with
  | some mid =>
    match fetchMsg w tid mid with
    | some m => (m.id, w)
    | none => createSchedMsg w tid metaKey
  | none => createSchedMsg w tid metaKey

/-- `publishSchedule`: a falsy thread id is a no-op returning 0; otherwise
query the month, fetch the destination thread, locate-or-create the owned
message, and replace its content with the fresh render. -/
def publishSchedule (dbq : QueryRequest → Except String QueryResponse)
    (fetch : String → Except String Page) (w : World) (threadId : Option String)
    (monthKey metaKey tzLabel : String) : Except String (Nat × World) :=
  match threadId with
  | none => .ok (0, w)
  | some tid =>
    match queryNotionForMonth dbq fetch w.cache monthKey with
    | .error e => .error e
    | .ok (events, st) =>
      let w1 : World := ⟨w.threads, w.nextMsgId, w.meta, st.1⟩
      if hasThread w1 tid then
        let ens := ensureScheduleMessage w1 tid metaKey
        let w3 := editMessage ens.2 tid ens.1 "" [buildEmbed monthKey events tzLabel]
        .ok (events.length, w3)
      else .error ("Thread not found or no access: " ++ tid)

/-! ### Helper lemmas: cache and fetch-trace bookkeeping -/

/-- The get-page fetch succeeds on this id. -/
def FetchOk (fetch : String → Except String Page) (id : String) : Prop :=
  ∃ p, fetch id = .ok p

/-- Well-formed resolution state: the fetch trace has no duplicates and every
fetched id has been cached. -/
def GoodState (st : RState) : Prop :=
  st.2.Nodup ∧ ∀ id ∈ st.2, (alookup st.1 id).isSome = true

/-- How one or more resolution steps relate the state before to the state
after: cached ids stay cached, every cached id was already cached or had a
successful fetch, and well-formedness is preserved. -/
def StOk (fetch : String → Except String Page) (st st' : RState) : Prop :=
  (∀ id, (alookup st.1 id).isSome = true → (alookup st'.1 id).isSome = true) ∧
  (∀ id, (alookup st'.1 id).isSome = true →
    (alookup st.1 id).isSome = true ∨ FetchOk fetch id) ∧
  (GoodState st → GoodState st')

theorem stOk_refl (fetch : String → Except String Page) (st : RState) : StOk fetch st st :=
  ⟨fun _ h => h, fun _ h => Or.inl h, fun h => h⟩

theorem stOk_trans {fetch : String → Except String Page} {st st' st'' : RState}
    (h1 : StOk fetch st st') (h2 : StOk fetch st' st'') : StOk fetch st st'' :=
  ⟨fun id h => h2.1 id (h1.1 id h),
   fun id h => (h2.2.1 id h).elim (fun hc => h1.2.1 id hc) Or.inr,
   fun h => h2.2.2 (h1.2.2 h)⟩

theorem getPageTitleCached_stOk {fetch : String → Except String Page} {st st' : RState}
    {pid t : String} (h : getPageTitleCached fetch st pid = .ok (t, st')) :
    StOk fetch st st' ∧ (alookup st'.1 pid).isSome = true := by
  unfold getPageTitleCached at h
  split at h
  case h_1 t0 hc =>
    cases h
    exact ⟨stOk_refl fetch st, by simp [hc]⟩
  case h_2 hc =>
    split at h
    case h_1 => cases h
    case h_2 page hf =>
      cases h
      refine ⟨⟨?_, ?_, ?_⟩, by simp [alookup]⟩
      · intro id hid
        by_cases hpid : pid = id
        · simp [alookup, hpid]
        · simpa [alookup, hpid] using hid
      · intro id hid
        by_cases hpid : pid = id
        · exact Or.inr ⟨page, hpid ▸ hf⟩
        · simpa [alookup, hpid] using Or.inl hid
      · rintro ⟨hnd, hcov⟩
        constructor
        · have hpid : pid ∉ st.2 := fun hmem => by
            have hcv := hcov pid hmem
            rw [hc] at hcv
            simp at hcv
          simp [List.nodup_append, hnd, hpid]
        · intro id hid
          rcases List.mem_append.mp hid with hid | hid
          · by_cases hpid : pid = id
            · simp [alookup, hpid]
            · simpa [alookup, hpid] using hcov id hid
          · simp only [List.mem_singleton] at hid
            simp [alookup, hid]

theorem resolveNamesGo_stOk {fetch : String → Except String Page} :
    ∀ {ids : List String} {st st' : RState} {names : List String},
    resolveNamesGo fetch st ids = .ok (names, st') →
    StOk fetch st st' ∧ ∀ id ∈ ids, (alookup st'.1 id).isSome = true
  | [], st, st', names, h => by
    cases h
    exact ⟨stOk_refl fetch st, by simp⟩
  | id :: rest, st, st', names, h => by
    unfold resolveNamesGo at h
    split at h
    case h_1 => cases h
    case h_2 t st1 hg =>
      split at h
      case h_1 => cases h
      case h_2 ns st2 hr =>
        cases h
        obtain ⟨hs1, hcached⟩ := getPageTitleCached_stOk hg
        obtain ⟨hs2, hcov⟩ := resolveNamesGo_stOk hr
        refine ⟨stOk_trans hs1 hs2, ?_⟩
        intro i hi
        rcases List.mem_cons.mp hi with hi | hi
        · exact hs2.1 i (hi ▸ hcached)
        · exact hcov i hi

theorem resolveNamesGo_length {fetch : String → Except String Page} :
    ∀ {ids : List String} {st st' : RState} {names : List String},
    resolveNamesGo fetch st ids = .ok (names, st') → names.length ≤ ids.length
  | [], st, st', names, h => by cases h; simp
  | id :: rest, st, st', names, h => by
    unfold resolveNamesGo at h
    split at h
    case h_1 => cases h
    case h_2 t st1 hg =>
      split at h
      case h_1 => cases h
      case h_2 ns st2 hr =>
        cases h
        have := resolveNamesGo_length hr
        by_cases ht : t = "" <;> simp [ht] <;> omega

theorem resolveRelationNames_stOk {fetch : String → Except String Page}
    {st st' : RState} {prop : Option NotionProp} {maxN : Nat} {names : List String}
    (h : resolveRelationNames fetch st prop maxN = .ok (names, st')) :
    StOk fetch st st' := by
  simp only [resolveRelationNames] at h
  split at h
  · cases h; exact stOk_refl fetch st
  · split at h
    case h_1 => cases h
    case h_2 ns st2 hg =>
      cases h
      exact (resolveNamesGo_stOk hg).1

theorem normalizePage_stOk {fetch : String → Except String Page} {st st' : RState}
    {page : Page} {it : Option Item} (h : normalizePage fetch st page = .ok (it, st')) :
    StOk fetch st st' := by
  simp only [normalizePage] at h
  split at h
  · cases h; exact stOk_refl fetch st
  · split at h
    case h_1 => cases h
    case h_2 an st1 ha =>
      split at h
      case h_1 => cases h
      case h_2 mn st2 hm =>
        cases h
        exact stOk_trans (resolveRelationNames_stOk ha) (resolveRelationNames_stOk hm)

theorem processResults_stOk {fetch : String → Except String Page} :
    ∀ {pages : List Page} {st st' : RState} {items : List Item},
    processResults fetch st pages = .ok (items, st') → StOk fetch st st'
  | [], st, st', items, h => by cases h; exact stOk_refl fetch st
  | page :: rest, st, st', items, h => by
    unfold processResults at h
    split at h
    case h_1 => cases h
    case h_2 st1 hn =>
      exact stOk_trans (normalizePage_stOk hn) (processResults_stOk h)
    case h_3 it st1 hn =>
      split at h
      case h_1 => cases h
      case h_2 its st2 hr =>
        cases h
        exact stOk_trans (normalizePage_stOk hn) (processResults_stOk hr)

/-! ### Helper lemmas: where the records of a query come from -/

theorem normalizePage_some_date {fetch : String → Except String Page} {st st' : RState}
    {page : Page} {it : Item} (h : normalizePage fetch st page = .ok (some it, st')) :
    dateStart (alookup page.properties NOTION_PROPS.date) = some it.dateObj := by
  simp only [normalizePage] at h
  split at h
  case h_1 => cases h
  case h_2 ds hds =>
    split at h
    case h_1 => cases h
    case h_2 an st1 ha =>
      split at h
      case h_1 => cases h
      case h_2 mn st2 hm =>
        cases h
        exact hds

theorem processResults_mem {fetch : String → Except String Page} :
    ∀ {pages : List Page} {st st' : RState} {items : List Item},
    processResults fetch st pages = .ok (items, st') → ∀ it ∈ items,
    ∃ page ∈ pages, dateStart (alookup page.properties NOTION_PROPS.date) = some it.dateObj
  | [], st, st', items, h => by cases h; simp
  | page :: rest, st, st', items, h => by
    unfold processResults at h
    split at h
    case h_1 => cases h
    case h_2 st1 hn =>
      intro it hit
      obtain ⟨pg, hpg, hd⟩ := processResults_mem h it hit
      exact ⟨pg, List.mem_cons_of_mem page hpg, hd⟩
    case h_3 it0 st1 hn =>
      split at h
      case h_1 => cases h
      case h_2 its st2 hr =>
        cases h
        intro it hit
        rcases List.mem_cons.mp hit with hit | hit
        · exact ⟨page, List.mem_cons_self page rest, hit ▸ normalizePage_some_date hn⟩
        · obtain ⟨pg, hpg, hd⟩ := processResults_mem hr it hit
          exact ⟨pg, List.mem_cons_of_mem page hpg, hd⟩

theorem notionDbQuery_mem {db : List Page} {req : QueryRequest} {res : QueryResponse}
    (h : notionDbQuery db req = .ok res) :
    ∀ page ∈ res.results, pageMatchesFilter req page = true := by
  cases h
  intro page hpage
  have h1 : page ∈ List.insertionSort pageDateLe (db.filter (pageMatchesFilter req)) :=
    List.mem_of_mem_take hpage
  have h2 : page ∈ db.filter (pageMatchesFilter req) :=
    (List.perm_insertionSort pageDateLe _).mem_iff.mp h1
  exact (List.mem_filter.mp h2).2

theorem pageMatchesFilter_bounds {req : QueryRequest} {page : Page} {d : JsDate}
    (h : pageMatchesFilter req page = true)
    (hd : dateStart (alookup page.properties NOTION_PROPS.date) = some d) :
    req.filterOnOrAfter ≤ d.getTime ∧ d.getTime < req.filterBefore := by
  unfold pageMatchesFilter at h
  rw [hd] at h
  simp at h
  exact h.2

/-- Shape of a successful `queryNotionForMonth` call: the query request it
issues, the raw response, and the final defensive sort. -/
theorem queryNotionForMonth_ok {dbq : QueryRequest → Except String QueryResponse}
    {fetch : String → Except String Page} {gcache : Cache} {monthKey : String}
    {items : List Item} {st : RState}
    (h : queryNotionForMonth dbq fetch gcache monthKey = .ok (items, st)) :
    ∃ res items0,
      dbq ⟨"Upcoming", (monthStartEnd monthKey).1.getTime,
        (monthStartEnd monthKey).2.getTime, true, 100⟩ = .ok res ∧
      processResults fetch ([], []) res.results = .ok (items0, st) ∧
      items = List.insertionSort itemDateLe items0 := by
  simp only [queryNotionForMonth] at h
  split at h
  case h_1 => cases h
  case h_2 res hres =>
    split at h
    case h_1 => cases h
    case h_2 items0 st0 hpr =>
      cases h
      exact ⟨res, items0, hres, hpr, rfl⟩

/-! ### Helper lemmas: the destination upsert -/

theorem threadMsgs_editMessage_self (w : World) (tid : String) (mid : Nat)
    (content : String) (embeds : List Embed) :
    threadMsgs (editMessage w tid mid content embeds) tid =
      editMsgList (threadMsgs w tid) mid content embeds := by
  simp [editMessage, threadMsgs, alookup_asetKey_self]

theorem editMsgList_length (msgs : List Msg) (mid : Nat) (content : String)
    (embeds : List Embed) : (editMsgList msgs mid content embeds).length = msgs.length := by
  simp [editMsgList]

theorem find?_editMsgList {msgs : List Msg} {mid : Nat} (content : String)
    (embeds : List Embed) (h : ∃ m ∈ msgs, m.id = mid) :
    (editMsgList msgs mid content embeds).find? (fun m => decide (m.id = mid)) =
      some ⟨mid, content, embeds⟩ := by
  induction msgs with
  | nil => simp at h
  | cons m0 rest ih =>
    by_cases h0 : m0.id = mid
    · simp [editMsgList, h0]
    · have h' : ∃ m ∈ rest, m.id = mid := by
        obtain ⟨m, hm, hid⟩ := h
        rcases List.mem_cons.mp hm with rfl | hm
        · exact absurd hid h0
        · exact ⟨m, hm, hid⟩
      simpa [editMsgList, h0] using ih h'

theorem ensure_reuse {w : World} {tid metaKey : String} {mid : Nat} {m : Msg}
    (h1 : alookup w.meta metaKey = some mid) (h2 : fetchMsg w tid mid = some m) :
    ensureScheduleMessage w tid metaKey = (mid, w) := by
  have h2' : (threadMsgs w tid).find? (fun m => decide (m.id = mid)) = some m := h2
  have hid : m.id = mid := by simpa using List.find?_some h2'
  unfold ensureScheduleMessage
  rw [h1]
  simp [h2, hid]

/-- What a successful `ensureScheduleMessage` guarantees: the meta store maps
the key to the returned id, a message with that id is present in the thread,
all other meta keys are untouched, and the non-meta, non-thread components are
untouched. -/
theorem ensure_spec (w : World) (tid metaKey : String) :
    alookup (ensureScheduleMessage w tid metaKey).2.meta metaKey =
      some (ensureScheduleMessage w tid metaKey).1 ∧
    (∃ m ∈ threadMsgs (ensureScheduleMessage w tid metaKey).2 tid,
      m.id = (ensureScheduleMessage w tid metaKey).1) ∧
    (∀ k, k ≠ metaKey →
      alookup (ensureScheduleMessage w tid metaKey).2.meta k = alookup w.meta k) ∧
    (ensureScheduleMessage w tid metaKey).2.cache = w.cache := by
  unfold ensureScheduleMessage
  split
  case h_1 mid hm =>
    split
    case h_1 m hf =>
      have hf' : (threadMsgs w tid).find? (fun m => decide (m.id = mid)) = some m := hf
      have hid : m.id = mid := by simpa using List.find?_some hf'
      refine ⟨by rw [hid]; exact hm, ⟨m, List.mem_of_find?_eq_some hf', rfl⟩,
        fun k _ => rfl, rfl⟩
    case h_2 hf =>
      refine ⟨alookup_asetKey_self _ _ _, ?_, ?_, rfl⟩
      · refine ⟨⟨w.nextMsgId, "Initializing schedule…", []⟩, ?_, rfl⟩
        simp [createSchedMsg, sendToThread, threadMsgs, alookup_asetKey_self]
      · intro k hk
        exact alookup_asetKey_other _ _ _ _ hk
  case h_2 hm =>
    refine ⟨alookup_asetKey_self _ _ _, ?_, ?_, rfl⟩
    · refine ⟨⟨w.nextMsgId, "Initializing schedule…", []⟩, ?_, rfl⟩
      simp [createSchedMsg, sendToThread, threadMsgs, alookup_asetKey_self]
    · intro k hk
      exact alookup_asetKey_other _ _ _ _ hk

/-- Shape of a successful `publishSchedule` call on a non-null thread id. -/
theorem publishSchedule_ok {dbq : QueryRequest → Except String QueryResponse}
    {fetch : String → Except String Page} {w : World} {tid monthKey metaKey tzLabel : String}
    {n : Nat} {w' : World}
    (h : publishSchedule dbq fetch w (some tid) monthKey metaKey tzLabel = .ok (n, w')) :
    ∃ events st mid wmid,
      queryNotionForMonth dbq fetch w.cache monthKey = .ok (events, st) ∧
      n = events.length ∧
      ensureScheduleMessage ⟨w.threads, w.nextMsgId, w.meta, st.1⟩ tid metaKey = (mid, wmid) ∧
      w' = editMessage wmid tid mid "" [buildEmbed monthKey events tzLabel] := by
  simp only [publishSchedule] at h
  split at h
  case h_1 => cases h
  case h_2 events st hq =>
    split at h
    · cases h
      exact ⟨events, st, _, _, hq, rfl, rfl, rfl⟩
    · cases h

/-- After a successful `publishSchedule` on `some tid`, the meta store owns a
message id for the key, and the thread holds exactly that message carrying the
fresh render of the events the call itself queried. -/
theorem publishSchedule_post {dbq : QueryRequest → Except String QueryResponse}
    {fetch : String → Except String Page} {w : World} {tid monthKey metaKey tzLabel : String}
    {n : Nat} {w' : World}
    (h : publishSchedule dbq fetch w (some tid) monthKey metaKey tzLabel = .ok (n, w')) :
    ∃ mid events st,
      queryNotionForMonth dbq fetch w.cache monthKey = .ok (events, st) ∧
      n = events.length ∧
      alookup w'.meta metaKey = some mid ∧
      fetchMsg w' tid mid = some ⟨mid, "", [buildEmbed monthKey events tzLabel]⟩ := by
  obtain ⟨events, st, mid, wmid, hq, hn, hens, hw'⟩ := publishSchedule_ok h
  have hspec := ensure_spec ⟨w.threads, w.nextMsgId, w.meta, st.1⟩ tid metaKey
  rw [hens] at hspec
  refine ⟨mid, events, st, hq, hn, ?_, ?_⟩
  · rw [hw']
    exact hspec.1
  · rw [hw']
    unfold fetchMsg
    rw [threadMsgs_editMessage_self]
    exact find?_editMsgList _ _ hspec.2.1

/-! ### Concrete fixtures used by the witnesses -/

/-- A concrete get-page oracle: five resolvable artist pages, anything else a
404. -/
def sampleFetch : String → Except String Page := fun id =>
  if id = "a" then .ok ⟨[("Name", .title ["Artist A"])]⟩
  else if id = "b" then .ok ⟨[("Name", .title ["Artist B"])]⟩
  else if id = "c" then .ok ⟨[("Name", .title ["Artist C"])]⟩
  else if id = "d" then .ok ⟨[("Name", .title ["Artist D"])]⟩
  else if id = "e" then .ok ⟨[("Name", .title ["Artist E"])]⟩
  else .error ("Notion API 404: Could not find page " ++ id)

def samplePage1 : Page := ⟨[
  ("Title", .title ["Album X"]),
  ("Date", .date (some ⟨2025, 11, 3, 0⟩)),
  ("Type", .select (some "Release")),
  ("Status", .select (some "Upcoming")),
  ("Artist", .relation ["a", "a"])]⟩

def samplePage2 : Page := ⟨[
  ("Title", .title ["Show"]),
  ("Date", .date (some ⟨2025, 11, 1, 0⟩)),
  ("Type", .select (some "Event")),
  ("Status", .select (some "Upcoming")),
  ("Member", .relation ["a", "b"])]⟩

/-- A record with no date property at all. -/
def datelessPage : Page := ⟨[
  ("Title", .title ["No date"]),
  ("Status", .select (some "Upcoming"))]⟩

def sampleDb : List Page := [samplePage1, samplePage2]

def sampleDbq : QueryRequest → Except String QueryResponse := notionDbQuery sampleDb

/-- The two normalized records `sampleDb` yields for 2025-12, in query
order. -/
def sampleItems : List Item :=
  [⟨"Show", "Event", ⟨2025, 11, 1, 0⟩, "", "", "", "", "Artist A, Artist B"⟩,
   ⟨"Album X", "Release", ⟨2025, 11, 3, 0⟩, "", "", "", "Artist A, Artist A", ""⟩]

/-- The resolution state after querying `sampleDb` for 2025-12. -/
def sampleSt : RState := ([("b", "Artist B"), ("a", "Artist A")], ["a", "b"])

/-- A world whose meta store already owns message 5 of thread `t1` and holds
an unrelated binding. -/
def sampleWorld : World :=
  ⟨[("t1", [⟨5, "old", []⟩])], 10, [("g:thisMonth", 5), ("other", 7)], []⟩

/-- A world with an empty thread and no meta bindings. -/
def freshWorld : World := ⟨[("t1", [])], 10, [], []⟩

/-! ### Claims -/

/-- C8: for every call to `publishSchedule` where the scope thread identifier
is null/unconfigured, the call is a no-op returning 0: the result is `.ok 0`
with the world unchanged, for arbitrary source and fetch oracles (so no source
query, destination fetch, message creation or edit is observable) and no
error. -/
theorem publishSchedule_null_thread_noop (dbq : QueryRequest → Except String QueryResponse)
    (fetch : String → Except String Page) (w : World) (monthKey metaKey tzLabel : String) :
    publishSchedule dbq fetch w none monthKey metaKey tzLabel = .ok (0, w) := rfl

/-- C2: for every source-database response (the query oracle `dbq` is
arbitrary, so the raw result page may have any order and contents), a
successful `queryNotionForMonth` returns a record sequence sorted
non-decreasingly by `occursAt` (`dateObj`). -/
theorem queryNotionForMonth_sorted (dbq : QueryRequest → Except String QueryResponse)
    (fetch : String → Except String Page) (gcache : Cache) (monthKey : String)
    (items : List Item) (st : RState)
    (h : queryNotionForMonth dbq fetch gcache monthKey = .ok (items, st)) :
    List.Sorted (fun a b : Item => a.dateObj.getTime ≤ b.dateObj.getTime) items := by
  obtain ⟨res, items0, _, _, hsort⟩ := queryNotionForMonth_ok h
  subst hsort
  exact (List.sorted_insertionSort itemDateLe items0).imp (fun hab => hab)

theorem queryNotionForMonth_sorted_witness :
    List.Sorted (fun a b : Item => a.dateObj.getTime ≤ b.dateObj.getTime) sampleItems :=
  queryNotionForMonth_sorted sampleDbq sampleFetch [] "2025-12" sampleItems sampleSt rfl

/-- C5: a successful `resolveRelationNames` returns at most `max + 1` names;
with `max = 2` and 5 input identifiers it returns at most 3 names, the last
one is the literal overflow marker `+3`, and when 3 names are present the 3rd
is exactly `+3`. -/
theorem resolveRelationNames_cap (fetch : String → Except String Page) (st : RState)
    (prop : Option NotionProp) (maxN : Nat) (names : List String) (st' : RState)
    (h : resolveRelationNames fetch st prop maxN = .ok (names, st')) :
    names.length ≤ maxN + 1 ∧
    ((relationIds prop).length = 5 → maxN = 2 →
      names.length ≤ 3 ∧ names.getLast? = some "+3" ∧
      (names.length = 3 → names[2]? = some "+3")) := by
  simp only [resolveRelationNames] at h
  split at h
  case isTrue he =>
    cases h
    refine ⟨by simp, ?_⟩
    intro h5 _
    rw [List.isEmpty_iff] at he
    rw [he] at h5
    simp at h5
  case isFalse he =>
    split at h
    case h_1 => cases h
    case h_2 ns st2 hg =>
      have hlen : ns.length ≤ maxN :=
        le_trans (resolveNamesGo_length hg) (by simp [List.length_take])
      cases h
      constructor
      · by_cases hc : maxN < (relationIds prop).length
        · simp only [hc, if_true]
          simp only [List.length_append, List.length_cons, List.length_nil]
          omega
        · simp only [hc, if_false]
          omega
      · intro h5 hm2
        subst hm2
        have hc : 2 < (relationIds prop).length := by omega
        have hmark : ("+" ++ toString ((relationIds prop).length - 2)) = "+3" := by
          rw [h5]
          decide
        simp only [hc, if_true, hmark]
        refine ⟨by simp; omega, by simp, ?_⟩
        intro hlen3
        simp only [List.length_append, List.length_cons, List.length_nil] at hlen3
        have hns2 : ns.length = 2 := by omega
        rw [List.getElem?_append_right (by omega)]
        simp [hns2]

theorem resolveRelationNames_cap_witness :
    (["Artist A", "Artist B", "+3"] : List String).length ≤ 2 + 1 :=
  (resolveRelationNames_cap sampleFetch ([], []) (some (.relation ["a", "b", "c", "d", "e"]))
    2 ["Artist A", "Artist B", "+3"]
    ([("b", "Artist B"), ("a", "Artist A")], ["a", "b"]) rfl).1

/-- The `continue` on a record without a usable date value skips exactly that
record and nothing else. -/
theorem processResults_skip (fetch : String → Except String Page) (st : RState)
    (page : Page) (rest : List Page)
    (h : dateStart (alookup page.properties NOTION_PROPS.date) = none) :
    processResults fetch st (page :: rest) = processResults fetch st rest := by
  have hn : normalizePage fetch st page = .ok (none, st) := by
    simp only [normalizePage, h]
  simp only [processResults, hn]

/-- C7: a raw source record lacking a usable date value is excluded from the
sequence `queryNotionForMonth` returns and from everything downstream (the
rendered body and the published message are those computed without the
record), silently: no error is raised and the remaining records are processed
unchanged. -/
theorem dateless_record_skipped (fetch : String → Except String Page) (gcache : Cache)
    (monthKey : String) (page : Page) (rest : List Page) (st : RState) (w : World)
    (threadId : Option String) (metaKey tzLabel : String)
    (h : dateStart (alookup page.properties NOTION_PROPS.date) = none) :
    processResults fetch st (page :: rest) = processResults fetch st rest ∧
    queryNotionForMonth (fun _ => .ok ⟨page :: rest⟩) fetch gcache monthKey =
      queryNotionForMonth (fun _ => .ok ⟨rest⟩) fetch gcache monthKey ∧
    publishSchedule (fun _ => .ok ⟨page :: rest⟩) fetch w threadId monthKey metaKey tzLabel =
      publishSchedule (fun _ => .ok ⟨rest⟩) fetch w threadId monthKey metaKey tzLabel := by
  have hq : ∀ gc : Cache, queryNotionForMonth (fun _ => .ok ⟨page :: rest⟩) fetch gc monthKey =
      queryNotionForMonth (fun _ => .ok ⟨rest⟩) fetch gc monthKey := by
    intro gc
    simp only [queryNotionForMonth]
    rw [processResults_skip fetch _ page rest h]
  refine ⟨processResults_skip fetch st page rest h, hq gcache, ?_⟩
  cases threadId with
  | none => rfl
  | some tid =>
    simp only [publishSchedule]
    rw [hq]

theorem dateless_record_skipped_witness :
    processResults sampleFetch ([], []) (datelessPage :: [samplePage1]) =
      processResults sampleFetch ([], []) [samplePage1] :=
  (dateless_record_skipped sampleFetch [] "2025-12" datelessPage [samplePage1] ([], [])
    freshWorld none "g:thisMonth" "KST" rfl).1

/-- C6: for a record list containing exactly one record dated the 3rd of the
queried month with category "Release", title "Album X", and empty
time/location/link/reference fields, the rendered body is the single line
`[<MON> 03] 💿 Album X` (short uppercase month name, zero-padded day, the
Release glyph, the title, no metadata or link suffix). -/
theorem render_release_day3_line (monthKey tzLabel : String) (y m : Int)
    (hk : parseMonthKey monthKey = some (y, m)) (h1 : 1 ≤ m) (h2 : m ≤ 12) :
    (buildEmbed monthKey
        [⟨"Album X", "Release", ⟨y, m - 1, 3, 0⟩, "", "", "", "", ""⟩] tzLabel).description =
      "[" ++ MONTH_SHORT_UPPER.getD (m - 1).toNat "" ++ " 03] 💿 Album X" := by
  have hdesc : (buildEmbed monthKey
      [⟨"Album X", "Release", ⟨y, m - 1, 3, 0⟩, "", "", "", "", ""⟩] tzLabel).description =
      fmtLine ⟨"Album X", "Release", ⟨y, m - 1, 3, 0⟩, "", "", "", "", ""⟩ := by
    simp only [buildEmbed, List.isEmpty_cons, List.map_cons, List.map_nil]
    exact rfl
  rw [hdesc]
  simp only [fmtLine]
  norm_num
  interval_cases m <;> decide

theorem render_release_day3_line_witness :
    (buildEmbed "2025-12"
        [⟨"Album X", "Release", ⟨2025, 11, 3, 0⟩, "", "", "", "", ""⟩] "KST").description =
      "[" ++ MONTH_SHORT_UPPER.getD ((12 : Int) - 1).toNat "" ++ " 03] 💿 Album X" :=
  render_release_day3_line "2025-12" "KST" 2025 12 rfl (by decide) (by decide)

/-- C1 counterexample: with a concrete get-page oracle that fails, a single
unresolvable identifier makes `resolveRelationNames` return the fetch error
itself — it does not return a sequence with the identifier omitted. -/
theorem resolve_fetch_error_propagates_cex :
    resolveRelationNames (fun _ => .error "Notion API 500: boom") ([], [])
      (some (.relation ["p1"])) 2 = .error "Notion API 500: boom" := rfl

/-- C1 (amended): a fetch failure on an uncached identifier aborts the whole
resolution with that fetch error; what is silently omitted is an identifier
whose fetched page yields an empty display name; accordingly, a successful
resolution implies every processed identifier was already cached or
fetchable. -/
theorem resolve_failure_semantics :
    (∀ (fetch : String → Except String Page) (st : RState) (id : String)
        (rest : List String) (e : String),
      alookup st.1 id = none → fetch id = .error e →
      resolveRelationNames fetch st (some (.relation (id :: rest))) 2 = .error e) ∧
    (∀ (fetch : String → Except String Page) (st : RState) (id : String) (page : Page),
      alookup st.1 id = none → fetch id = .ok page → firstTitleFromPage page = "" →
      resolveRelationNames fetch st (some (.relation [id])) 2 =
        .ok ([], ((id, "") :: st.1, st.2 ++ [id]))) ∧
    (∀ (fetch : String → Except String Page) (st : RState) (prop : Option NotionProp)
        (maxN : Nat) (names : List String) (st' : RState),
      resolveRelationNames fetch st prop maxN = .ok (names, st') →
      ∀ id ∈ (relationIds prop).take maxN,
        (alookup st.1 id).isSome = true ∨ FetchOk fetch id) := by
  refine ⟨?_, ?_, ?_⟩
  · intro fetch st id rest e hc hf
    simp [resolveRelationNames, relationIds, resolveNamesGo, getPageTitleCached, hc, hf]
  · intro fetch st id page hc hf ht
    simp [resolveRelationNames, relationIds, resolveNamesGo, getPageTitleCached, hc, hf, ht]
  · intro fetch st prop maxN names st' h id hid
    simp only [resolveRelationNames] at h
    split at h
    case isTrue he =>
      rw [List.isEmpty_iff] at he
      rw [he] at hid
      simp at hid
    case isFalse he =>
      split at h
      case h_1 => cases h
      case h_2 ns st2 hg =>
        obtain ⟨hstok, hcov⟩ := resolveNamesGo_stOk hg
        exact hstok.2.1 id (hcov id hid)

theorem resolve_failure_semantics_witness :
    resolveRelationNames (fun _ => .error "Notion API 503: down") ([("z", "Z")], [])
      (some (.relation ["x", "y"])) 2 = .error "Notion API 503: down" :=
  resolve_failure_semantics.1 (fun _ => .error "Notion API 503: down") ([("z", "Z")], [])
    "x" ["y"] "Notion API 503: down" rfl rfl

/-- C9: the resolved-name cache is cleared at the start of every
`queryNotionForMonth` call (the result does not depend on the incoming
process-wide cache contents), and within one successful query call at most one
get-page fetch is issued per unique cross-reference identifier (the issued
fetch trace has no duplicates), however many times and in whichever relation
fields an identifier occurs. -/
theorem queryCache_cleared_and_fetch_once (dbq : QueryRequest → Except String QueryResponse)
    (fetch : String → Except String Page) (gcache : Cache) (monthKey : String) :
    (∀ gcache' : Cache, queryNotionForMonth dbq fetch gcache monthKey =
      queryNotionForMonth dbq fetch gcache' monthKey) ∧
    (∀ (items : List Item) (st : RState),
      queryNotionForMonth dbq fetch gcache monthKey = .ok (items, st) → st.2.Nodup) := by
  constructor
  · intro gcache'
    rfl
  · intro items st h
    obtain ⟨res, items0, hdbq, hpr, _⟩ := queryNotionForMonth_ok h
    have hst := processResults_stOk hpr
    exact (hst.2.2 ⟨List.nodup_nil, by simp⟩).1

theorem queryCache_fetch_once_witness : (["a", "b"] : List String).Nodup :=
  (queryCache_cleared_and_fetch_once sampleDbq sampleFetch [] "2025-12").2
    sampleItems sampleSt rfl

/-- C4: for all valid month keys, every record a successful
`queryNotionForMonth` returns (against the modelled database query service)
has `occursAt` within the half-open window from the start of the month to the
start of the following month, and the window end is exactly the start of the
following month — January 1 of the next year when the key names December. -/
theorem query_window_bounds (db : List Page) (fetch : String → Except String Page)
    (gcache : Cache) (monthKey : String) (y m : Int) (items : List Item) (st : RState)
    (hk : parseMonthKey monthKey = some (y, m)) (h1 : 1 ≤ m) (h2 : m ≤ 12)
    (h : queryNotionForMonth (notionDbQuery db) fetch gcache monthKey = .ok (items, st)) :
    (∀ it ∈ items,
      (monthStartEnd monthKey).1.getTime ≤ it.dateObj.getTime ∧
      it.dateObj.getTime < (monthStartEnd monthKey).2.getTime) ∧
    monthStartEnd monthKey =
      (jsNewDateYMD y (m - 1) 1,
       if m = 12 then jsNewDateYMD (y + 1) 0 1 else jsNewDateYMD y m 1) := by
  constructor
  · intro it hit
    obtain ⟨res, items0, hdbq, hpr, hsort⟩ := queryNotionForMonth_ok h
    subst hsort
    have hit0 : it ∈ items0 := (List.perm_insertionSort itemDateLe items0).mem_iff.mp hit
    obtain ⟨page, hpage, hdate⟩ := processResults_mem hpr it hit0
    have hmatch := notionDbQuery_mem hdbq page hpage
    exact pageMatchesFilter_bounds hmatch hdate
  · unfold monthStartEnd
    rw [hk]
    simp only [Option.getD_some]
    by_cases hm : m = 12
    · subst hm
      simp only [if_pos rfl, Prod.mk.injEq, jsNewDateYMD, JsDate.mk.injEq]
      norm_num
    · simp [hm]

theorem query_window_bounds_witness :
    (monthStartEnd "2025-12").1.getTime ≤ (⟨2025, 11, 1, 0⟩ : JsDate).getTime ∧
    (⟨2025, 11, 1, 0⟩ : JsDate).getTime < (monthStartEnd "2025-12").2.getTime := by
  have hb := (query_window_bounds sampleDb sampleFetch [] "2025-12" 2025 12 sampleItems
    sampleSt rfl (by decide) (by decide) rfl).1
  exact hb ⟨"Show", "Event", ⟨2025, 11, 1, 0⟩, "", "", "", "", "Artist A, Artist B"⟩ (by decide)

/-- C10: a successful `publishSchedule` touches at most the one meta key it
was called with — every other key of the persisted meta mapping reads exactly
as before — and when the stored message id for that key is still fetchable the
meta store is not written at all. -/
theorem publish_meta_frame (dbq : QueryRequest → Except String QueryResponse)
    (fetch : String → Except String Page) (w : World) (tid monthKey metaKey tzLabel : String)
    (n : Nat) (w' : World)
    (h : publishSchedule dbq fetch w (some tid) monthKey metaKey tzLabel = .ok (n, w')) :
    (∀ k, k ≠ metaKey → alookup w'.meta k = alookup w.meta k) ∧
    (∀ (mid : Nat) (msg : Msg), alookup w.meta metaKey = some mid →
      fetchMsg w tid mid = some msg → w'.meta = w.meta) := by
  obtain ⟨events, st, mid, wmid, hq, hn, hens, hw'⟩ := publishSchedule_ok h
  constructor
  · intro k hk
    have hspec := ensure_spec ⟨w.threads, w.nextMsgId, w.meta, st.1⟩ tid metaKey
    rw [hens] at hspec
    have hh := hspec.2.2.1 k hk
    rw [hw']
    exact hh
  · intro mid0 msg hmid hmsg
    have hmid1 : alookup (⟨w.threads, w.nextMsgId, w.meta, st.1⟩ : World).meta metaKey =
        some mid0 := hmid
    have hmsg1 : fetchMsg ⟨w.threads, w.nextMsgId, w.meta, st.1⟩ tid mid0 = some msg := hmsg
    have hre := ensure_reuse hmid1 hmsg1
    rw [hens] at hre
    injection hre with hmideq hweq
    rw [hw', hweq]
    rfl

/-- The world obtained by publishing `sampleDb` for 2025-12 into
`sampleWorld`. -/
def publishedWorld : World :=
  ⟨[("t1", [⟨5, "",
    [⟨"Schedule — December 2025",
      "[DEC 01] 📍 Show — Artist A, Artist B\n[DEC 03] 💿 Album X — Artist A, Artist A",
      "Synced from Notion • KST"⟩]⟩])],
   10, [("g:thisMonth", 5), ("other", 7)], [("b", "Artist B"), ("a", "Artist A")]⟩

theorem publish_meta_frame_witness : publishedWorld.meta = sampleWorld.meta := by
  have h := (publish_meta_frame sampleDbq sampleFetch sampleWorld "t1" "2025-12"
    "g:thisMonth" "KST" 2 publishedWorld rfl).2
  exact h 5 ⟨5, "old", []⟩ rfl rfl

/-- C3: calling `publishSchedule` twice in a row with identical arguments
leaves exactly one destination message owned for the (tenant, scope) key: both
calls leave the meta store pointing at the same message id, the second call
sends no new message (the thread's message count is unchanged), and the
message carries the second call's fresh render of its own query result. -/
theorem publish_twice_idempotent (dbq : QueryRequest → Except String QueryResponse)
    (fetch : String → Except String Page) (w : World) (tid monthKey metaKey tzLabel : String)
    (n₁ n₂ : Nat) (w₁ w₂ : World)
    (h₁ : publishSchedule dbq fetch w (some tid) monthKey metaKey tzLabel = .ok (n₁, w₁))
    (h₂ : publishSchedule dbq fetch w₁ (some tid) monthKey metaKey tzLabel = .ok (n₂, w₂)) :
    ∃ mid events₂ st₂,
      alookup w₁.meta metaKey = some mid ∧
      alookup w₂.meta metaKey = some mid ∧
      (threadMsgs w₂ tid).length = (threadMsgs w₁ tid).length ∧
      queryNotionForMonth dbq fetch w₁.cache monthKey = .ok (events₂, st₂) ∧
      n₂ = events₂.length ∧
      fetchMsg w₂ tid mid = some ⟨mid, "", [buildEmbed monthKey events₂ tzLabel]⟩ := by
  obtain ⟨mid1, ev1, st1, hq1, hn1, hmeta1, hfetch1⟩ := publishSchedule_post h₁
  obtain ⟨ev2, st2, mid2, wmid2, hq2, hn2, hens2, hw2⟩ := publishSchedule_ok h₂
  have hmeta1' : alookup (⟨w₁.threads, w₁.nextMsgId, w₁.meta, st2.1⟩ : World).meta metaKey =
      some mid1 := hmeta1
  have hfetch1' : fetchMsg ⟨w₁.threads, w₁.nextMsgId, w₁.meta, st2.1⟩ tid mid1 =
      some ⟨mid1, "", [buildEmbed monthKey ev1 tzLabel]⟩ := hfetch1
  have hre := ensure_reuse hmeta1' hfetch1'
  rw [hens2] at hre
  injection hre with hmid hwmid
  subst hmid
  subst hwmid
  refine ⟨mid2, ev2, st2, hmeta1, ?_, ?_, hq2, hn2, ?_⟩
  · rw [hw2]
    exact hmeta1
  · rw [hw2]
    unfold threadMsgs editMessage
    rw [show alookup (asetKey (⟨w₁.threads, w₁.nextMsgId, w₁.meta, st2.1⟩ : World).threads tid
      (editMsgList (threadMsgs ⟨w₁.threads, w₁.nextMsgId, w₁.meta, st2.1⟩ tid) mid2 ""
        [buildEmbed monthKey ev2 tzLabel])) tid = some (editMsgList
          (threadMsgs ⟨w₁.threads, w₁.nextMsgId, w₁.meta, st2.1⟩ tid) mid2 ""
          [buildEmbed monthKey ev2 tzLabel]) from alookup_asetKey_self _ _ _]
    simp only [Option.getD_some]
    rw [editMsgList_length]
    rfl
  · rw [hw2]
    unfold fetchMsg
    rw [threadMsgs_editMessage_self]
    apply find?_editMsgList
    have hmem := List.mem_of_find?_eq_some
      (show (threadMsgs ⟨w₁.threads, w₁.nextMsgId, w₁.meta, st2.1⟩ tid).find?
        (fun m => decide (m.id = mid2)) = some ⟨mid2, "", [buildEmbed monthKey ev1 tzLabel]⟩
        from hfetch1')
    exact ⟨⟨mid2, "", [buildEmbed monthKey ev1 tzLabel]⟩, hmem, rfl⟩

/-- The world obtained by publishing `sampleDb` for 2025-12 into
`freshWorld`: the placeholder message 10 is created and immediately edited to
the fresh render. -/
def pubW1 : World :=
  ⟨[("t1", [⟨10, "",
    [⟨"Schedule — December 2025",
      "[DEC 01] 📍 Show — Artist A, Artist B\n[DEC 03] 💿 Album X — Artist A, Artist A",
      "Synced from Notion • KST"⟩]⟩])],
   11, [("g:thisMonth", 10)], [("b", "Artist B"), ("a", "Artist A")]⟩

theorem publish_twice_idempotent_witness :
    fetchMsg pubW1 "t1" 10 = some ⟨10, "", [buildEmbed "2025-12" sampleItems "KST"]⟩ := by
  obtain ⟨mid, ev₂, st₂, hm1, hm2, hlen, hq, hn, hf⟩ :=
    publish_twice_idempotent sampleDbq sampleFetch freshWorld "t1" "2025-12" "g:thisMonth"
      "KST" 2 2 pubW1 pubW1 rfl rfl
  have e1 : alookup pubW1.meta "g:thisMonth" = some 10 := rfl
  rw [e1] at hm1
  have hmid : (10 : Nat) = mid := Option.some.inj hm1
  have e2 : queryNotionForMonth sampleDbq sampleFetch pubW1.cache "2025-12" =
      .ok (sampleItems, sampleSt) := rfl
  rw [e2] at hq
  have hpair : (sampleItems, sampleSt) = (ev₂, st₂) := Except.ok.inj hq
  have hev : sampleItems = ev₂ := congrArg Prod.fst hpair
  rw [← hmid, ← hev] at hf
  exact hf

end Caltrix
